import Mathlib

/-!
Shallow embedding of the commandkit configuration library (Go) in Lean 4.

Each definition mirrors a function of the source repository:
  * types.go       — ValueType, parseValue
  * definition.go  — Definition (builder fields)
  * validation.go  — Validation and the built-in rule constructors
  * files.go       — FileConfig, getFileValue, resolveValueWithFiles
  * config.go      — Config state, Process
  * secret.go      — Secret, SecretStore
  * get.go         — Get, GetOr, Has, GetSecret
  * errors.go      — ConfigError, maskSecret

Go-specific ambient effects are made explicit: the process environment and
the parsed command-line flag values are passed as a `Sources` record
(os.Getenv is `Sources.env`; `Sources.flags` is the flagValues map of
config.go keyed by definition key, where "" stands for an unset or empty
flag, exactly the condition `flagVal != nil && *flagVal != ""` tests).
Machine integers (int64, time.Duration) are modelled as Int with explicit
range checks where the Go code's parsers enforce them.  float64 values that
the Go code parses are modelled as exact rationals; every theorem below
evaluates them only at inputs where the rational and the float64 agree
(all numbers involved are exactly representable in binary64).
-/

namespace Commandkit

/-! ### ValueType (types.go) -/

/-- ValueType is an int in Go (`type ValueType int`, constants via iota). -/
abbrev ValueType := Int

def TypeString : ValueType := 0
def TypeInt64 : ValueType := 1
def TypeFloat64 : ValueType := 2
def TypeBool : ValueType := 3
def TypeDuration : ValueType := 4
def TypeURL : ValueType := 5
def TypeStringSlice : ValueType := 6
def TypeInt64Slice : ValueType := 7

/-- A typed configuration value: the dynamic (`any`) values the Go code
stores.  URLs are stored as strings by the source (`return raw, nil`). -/
inductive Value where
  | vString (s : String)
  | vInt64 (n : Int)
  | vFloat64 (q : ℚ)
  | vBool (b : Bool)
  | vDuration (ns : Int)
  | vStringSlice (xs : List String)
  | vInt64Slice (xs : List Int)
deriving DecidableEq, Repr

/-! ### Decimal-string helpers shared by the Go parsers -/

def charDigit (c : Char) : Nat := c.toNat - 48

def digitsToNat (ds : List Char) : Nat :=
  ds.foldl (fun a c => a * 10 + charDigit c) 0

/-- Decimal digits of a natural number, most significant first (fuel-based
so that it evaluates inside the kernel; the fuel strictly exceeds the
number of digits). -/
def natDigitsAux : Nat → Nat → List Char
  | 0, _ => []
  | Nat.succ fuel, n =>
    if n < 10 then [Nat.digitChar n]
    else natDigitsAux fuel (n / 10) ++ [Nat.digitChar (n % 10)]

def natDigits (n : Nat) : List Char := natDigitsAux (n + 1) n

/-- The decimal rendering fmt gives an integer (%d, and %v on int64). -/
def intToDecimal (n : Int) : String :=
  (if n < 0 then "-" else "") ++ String.mk (natDigits n.natAbs)

/-- The single optional leading sign Go's numeric parsers consume. -/
def splitSign (cs : List Char) : Bool × List Char :=
  match cs with
  | [] => (false, [])
  | c :: rest =>
    if c = '-' then (true, rest)
    else if c = '+' then (false, rest)
    else (false, c :: rest)

def int64Max : Int := 9223372036854775807
def int64Min : Int := -9223372036854775808

/-- strconv.ParseInt with base 10 and bitSize 64: optional single sign,
then decimal digits only, 64-bit signed range enforced. -/
def parseGoInt64 (s : String) : Option Int :=
  let p := splitSign s.toList
  let neg := p.1
  let ds := p.2
  if ds.isEmpty || !(ds.all Char.isDigit) then none
  else
    let v : Int := if neg then -(digitsToNat ds : Int) else (digitsToNat ds : Int)
    if v < int64Min || int64Max < v then none else some v

/-- strconv.ParseFloat on the plain decimal forms the repository feeds it:
optional sign, decimal digits with an optional fraction and an optional
e/E exponent.  The result is the exact rational value of the literal;
hex floats, Inf/NaN and underscore separators are not modelled, and the
final rounding to binary64 is omitted (the theorems below only use inputs
whose value is exactly representable in binary64, where both agree). -/
def parseGoFloatL (cs : List Char) : Option ℚ :=
  let p := splitSign cs
  let neg := p.1
  let cs1 := p.2
  let ip := cs1.takeWhile Char.isDigit
  let r1 := cs1.dropWhile Char.isDigit
  let fpr : List Char × List Char :=
    match r1 with
    | '.' :: rest => (rest.takeWhile Char.isDigit, rest.dropWhile Char.isDigit)
    | _ => ([], r1)
  let fp := fpr.1
  let rest := fpr.2
  if ip.isEmpty && fp.isEmpty then none
  else
    let mantNum : Nat := digitsToNat ip * 10 ^ fp.length + digitsToNat fp
    let mantDen : Nat := 10 ^ fp.length
    let scaled : Option (Nat × Nat) :=
      match rest with
      | [] => some (mantNum, mantDen)
      | 'e' :: er => expShift mantNum mantDen er
      | 'E' :: er => expShift mantNum mantDen er
      | _ => none
    match scaled with
    | none => none
    | some nd => some (mkRat (if neg then -(nd.1 : Int) else (nd.1 : Int)) nd.2)
where
  expShift (n d : Nat) (cs : List Char) : Option (Nat × Nat) :=
    let p := splitSign cs
    if p.2.isEmpty || !(p.2.all Char.isDigit) then none
    else
      let e := digitsToNat p.2
      some (if p.1 then (n, d * 10 ^ e) else (n * 10 ^ e, d))

def parseGoFloat (s : String) : Option ℚ := parseGoFloatL s.toList

/-- strconv.ParseBool: the exact literal set Go accepts. -/
def parseGoBool (s : String) : Option Bool :=
  if s = "1" || s = "t" || s = "T" || s = "TRUE" || s = "true" || s = "True" then
    some true
  else if s = "0" || s = "f" || s = "F" || s = "FALSE" || s = "false" || s = "False" then
    some false
  else none

/-! ### time.ParseDuration (model) -/

/-- Nanoseconds per unit, the unitMap of Go's time package. -/
def unitNs (u : String) : Option Nat :=
  if u = "ns" then some 1
  else if u = "us" then some 1000
  else if u = "µs" then some 1000
  else if u = "μs" then some 1000
  else if u = "ms" then some 1000000
  else if u = "s" then some 1000000000
  else if u = "m" then some 60000000000
  else if u = "h" then some 3600000000000
  else none

/-- One pass of time.ParseDuration's component loop: leading integer part,
optional ".fraction", then the unit (the maximal run of characters that are
neither digits nor '.').  Each component contributes
`int * unit + trunc(fraction * unit)` nanoseconds; with all quantities
non-negative the truncation Go performs (via int64 conversion) is Nat
division.  The fuel argument strictly exceeds the character count, and every
iteration consumes at least one character. -/
def durComponents : Nat → List Char → Option Nat
  | _, [] => some 0
  | 0, _ => none
  | Nat.succ fuel, cs =>
    let ip := cs.takeWhile Char.isDigit
    let r1 := cs.dropWhile Char.isDigit
    let fpr : List Char × List Char :=
      match r1 with
      | '.' :: rest => (rest.takeWhile Char.isDigit, rest.dropWhile Char.isDigit)
      | _ => ([], r1)
    let fp := fpr.1
    let r2 := fpr.2
    if ip.isEmpty && fp.isEmpty then none
    else
      let isUnitChar : Char → Bool := fun c => !(c.isDigit) && c ≠ '.'
      let uc := r2.takeWhile isUnitChar
      let r3 := r2.dropWhile isUnitChar
      match unitNs (String.mk uc) with
      | none => none
      | some u =>
        match durComponents fuel r3 with
        | none => none
        | some rest => some (digitsToNat ip * u + digitsToNat fp * u / 10 ^ fp.length + rest)

/-- time.ParseDuration: optional single sign, the special literal "0",
otherwise one or more number+unit components; the int64 overflow error is
modelled by the final range check.  (Go detects overflow during
accumulation, but with all contributions non-negative the final magnitude
check rejects exactly the same inputs.) -/
def parseGoDurationL (cs : List Char) : Option Int :=
  let p := splitSign cs
  let neg := p.1
  let cs1 := p.2
  if cs1 = ['0'] then some 0
  else if cs1.isEmpty then none
  else
    match durComponents (cs1.length + 1) cs1 with
    | none => none
    | some total =>
      if (total : Int) > int64Max then none
      else some (if neg then -(total : Int) else (total : Int))

def parseGoDuration (s : String) : Option Int := parseGoDurationL s.toList

/-! ### fmt.Sprintf("%.0f", _) (model) -/

/-- Rational multiplication and subtraction written with mkRat so that they
evaluate inside the kernel (the library operations are sealed); they agree
with the field operations of ℚ. -/
def ratMul (a b : ℚ) : ℚ := mkRat (a.num * b.num) (a.den * b.den)

def ratSub (a b : ℚ) : ℚ := mkRat (a.num * b.den - b.num * a.den) (a.den * b.den)

/-- Round to the nearest integer, ties to even — the rounding "%.0f"
applies (Go formats binary64 with round-to-nearest, ties-to-even decimal
digit selection; on the exact rationals used here the two coincide). -/
def roundHalfEven (q : ℚ) : Int :=
  let n := Rat.floor q
  let r := ratSub q (mkRat n 1)
  let half := mkRat 1 2
  if r.blt half then n
  else if half.blt r then n + 1
  else if n % 2 = 0 then n else n + 1

/-- fmt.Sprintf("%.0f", x): the rounded value in decimal.  (Go renders a
negative value that rounds to zero as "-0"; the model renders "0" — both
re-parse to the same 0-valued duration, the only use this formatting has
in the source.) -/
def fmtF0 (q : ℚ) : String :=
  intToDecimal (roundHalfEven q)

/-! ### String helpers that evaluate inside the kernel

Lean's own String.splitOn, String.trim and String.toLower are compiled
with non-reducing recursion, so the Go string operations are modelled
directly on character lists. -/

def startsWithL : List Char → List Char → Bool
  | [], _ => true
  | _ :: _, [] => false
  | a :: as, b :: bs => a = b && startsWithL as bs

/-- strings.Split for a non-empty separator, on character lists.  The fuel
strictly exceeds the text length; every step consumes at least one
character. -/
def splitLAux (sep : List Char) : Nat → List Char → List Char → List (List Char)
  | _, acc, [] => [acc.reverse]
  | 0, acc, _ => [acc.reverse]
  | Nat.succ fuel, acc, c :: cs =>
    if startsWithL sep (c :: cs) then
      acc.reverse :: splitLAux sep fuel [] (List.drop sep.length (c :: cs))
    else
      splitLAux sep fuel (c :: acc) cs

/-- strings.Split: splitLAux for a non-empty separator; Go splits an empty
separator into single runes. -/
def goSplit (s sep : String) : List String :=
  if sep = "" then s.toList.map (fun c => String.mk [c])
  else (splitLAux sep.toList (s.toList.length + 1) [] s.toList).map String.mk

/-- The white-space test of strings.TrimSpace (unicode.IsSpace), covering
the ASCII and Latin-1 space characters; the wider Unicode space classes
never appear in this development. -/
def isGoSpace (c : Char) : Bool :=
  c = ' ' || c = '\t' || c = '\n' || c = '\x0b' || c = '\x0c' || c = '\r' ||
  c = '\x85' || c = '\xa0'

/-- strings.TrimSpace. -/
def goTrim (s : String) : String :=
  String.mk (((s.toList.dropWhile isGoSpace).reverse.dropWhile isGoSpace).reverse)

/-- strings.ToLower (ASCII case mapping; the keys of this development are
ASCII). -/
def goToLower (s : String) : String :=
  String.mk (s.toList.map Char.toLower)

/-! ### net/url scheme/host extraction (model) -/

/-- Modelled: the composition of net/url's Parse with the
`v.Scheme == "" || v.Host == ""` test of parseValue's URL branch.  The
scheme is the text before the first "://" when it is a valid scheme
(letter first, then letters/digits/'+'/'-'/'.'), and the host is the text
after it up to the first '/', '?' or '#'.  URLs without "://" have an
empty host in Go (no authority component) and are rejected by the branch
either way. -/
def goURLSchemeHost (raw : String) : String × String :=
  match splitLAux "://".toList (raw.toList.length + 1) [] raw.toList with
  | [] => ("", "")
  | [_] => ("", "")
  | sch :: rest =>
    let tail := List.intercalate "://".toList rest
    let host := String.mk (tail.takeWhile (fun c => c ≠ '/' && c ≠ '?' && c ≠ '#'))
    let okScheme :=
      match sch with
      | [] => false
      | c :: cs => c.isAlpha && cs.all (fun x => x.isAlpha || x.isDigit || x = '+' || x = '-' || x = '.')
    if okScheme then (String.mk sch, host) else ("", "")

/-- The TypeInt64Slice element loop of parseValue: trim each part, skip
empty parts, parse the rest as int64, failing on the first bad element. -/
def parseInt64Parts : List String → Except String (List Int)
  | [] => .ok []
  | p :: rest =>
    let trimmed := goTrim p
    if trimmed = "" then parseInt64Parts rest
    else
      match parseGoInt64 trimmed with
      | none => .error ("invalid int64 in array: " ++ trimmed)
      | some v =>
        match parseInt64Parts rest with
        | .error e => .error e
        | .ok vs => .ok (v :: vs)

/-! ### parseValue (types.go) -/

/-- parseValue: parses a raw string into the declared type.  The empty raw
string yields `Except.ok none` (absence, not an error) before the type
switch — the `if raw == ""` re-checks inside the two slice branches of the
source are therefore unreachable and are not repeated here.  The Duration
branch mirrors the day-suffix special case: when the string ends in 'd'
and the prefix parses as a float, the duration is
`Sprintf("%.0fh", days*24)` re-parsed — i.e. days*24 hours rounded to a
whole number of hours. -/
def parseValue (raw : String) (valueType : ValueType) (delimiter : String) :
    Except String (Option Value) :=
  if raw = "" then .ok none
  else if valueType = TypeString then .ok (some (.vString raw))
  else if valueType = TypeInt64 then
    match parseGoInt64 raw with
    | none => .error ("invalid int64: " ++ raw)
    | some v => .ok (some (.vInt64 v))
  else if valueType = TypeFloat64 then
    match parseGoFloat raw with
    | none => .error ("invalid float64: " ++ raw)
    | some v => .ok (some (.vFloat64 v))
  else if valueType = TypeBool then
    match parseGoBool raw with
    | none => .error ("invalid bool: " ++ raw ++ " (use true/false, 1/0, yes/no)")
    | some v => .ok (some (.vBool v))
  else if valueType = TypeDuration then
    match raw.toList.getLast? with
    | some 'd' =>
      match parseGoFloatL raw.toList.dropLast with
      | some days =>
        let hours := ratMul days (mkRat 24 1)
        match parseGoDuration (fmtF0 hours ++ "h") with
        | none => .error ("invalid duration: " ++ raw)
        | some v => .ok (some (.vDuration v))
      | none =>
        match parseGoDuration raw with
        | none => .error ("invalid duration: " ++ raw ++ " (use format like 15m, 1h, 7d)")
        | some v => .ok (some (.vDuration v))
    | _ =>
      match parseGoDuration raw with
      | none => .error ("invalid duration: " ++ raw ++ " (use format like 15m, 1h, 7d)")
      | some v => .ok (some (.vDuration v))
  else if valueType = TypeURL then
    let sh := goURLSchemeHost raw
    if sh.1 = "" || sh.2 = "" then .error ("invalid URL (missing scheme or host): " ++ raw)
    else .ok (some (.vString raw))
  else if valueType = TypeStringSlice then
    .ok (some (.vStringSlice (((goSplit raw delimiter).map goTrim).filter (fun t => t ≠ ""))))
  else if valueType = TypeInt64Slice then
    match parseInt64Parts (goSplit raw delimiter) with
    | .error e => .error e
    | .ok vs => .ok (some (.vInt64Slice vs))
  else .error "unknown type"

/-! ### Display formatting helpers (fmt's %v) -/

def joinWith (sep : String) : List String → String
  | [] => ""
  | [x] => x
  | x :: y :: xs => x ++ sep ++ joinWith sep (y :: xs)

/-- Models fmt's %v on a float64: exact for integer values, the only
float values this development ever formats; a non-integral value is
rendered num/den, a divergence from Go's shortest-decimal form that no
claim exercises. -/
def goFmtQ (q : ℚ) : String :=
  if q.den = 1 then intToDecimal q.num
  else intToDecimal q.num ++ "/" ++ String.mk (natDigits q.den)

def padLeftZeros (k : Nat) (ds : List Char) : List Char :=
  List.replicate (k - ds.length) '0' ++ ds

def dropTrailingZeros (ds : List Char) : List Char :=
  (ds.reverse.dropWhile (fun c => c = '0')).reverse

def fracStr (rem : Nat) (k : Nat) : String :=
  if rem = 0 then ""
  else "." ++ String.mk (dropTrailingZeros (padLeftZeros k (natDigits rem)))

/-- Models time.Duration's String method (display only: it is used when
formatting error values and stringified secret durations, which no claim
exercises). -/
def goDurationRepr (d : Int) : String :=
  if d = 0 then "0s"
  else
    let sign := if d < 0 then "-" else ""
    let u := d.natAbs
    if u < 1000 then sign ++ String.mk (natDigits u) ++ "ns"
    else if u < 1000000 then
      sign ++ String.mk (natDigits (u / 1000)) ++ fracStr (u % 1000) 3 ++ "µs"
    else if u < 1000000000 then
      sign ++ String.mk (natDigits (u / 1000000)) ++ fracStr (u % 1000000) 6 ++ "ms"
    else
      let secs := u / 1000000000
      let secPart := String.mk (natDigits (secs % 60)) ++ fracStr (u % 1000000000) 9 ++ "s"
      if secs < 60 then sign ++ secPart
      else
        let mins := secs / 60
        let minPart := String.mk (natDigits (mins % 60)) ++ "m" ++ secPart
        if mins < 60 then sign ++ minPart
        else sign ++ String.mk (natDigits (mins / 60)) ++ "h" ++ minPart

/-- fmt.Sprintf("%v", _) on the dynamic values the source stores. -/
def goSprintValue : Value → String
  | .vString s => s
  | .vInt64 n => intToDecimal n
  | .vFloat64 q => goFmtQ q
  | .vBool b => if b then "true" else "false"
  | .vDuration ns => goDurationRepr ns
  | .vStringSlice xs => "[" ++ joinWith " " xs ++ "]"
  | .vInt64Slice xs => "[" ++ joinWith " " (xs.map intToDecimal) ++ "]"

/-! ### Validation (validation.go)

The regexp rule constructor is not modelled (it needs a regular-expression
engine and no claim mentions it); every resolver theorem below quantifies
over arbitrary rule lists, which covers it and the Custom escape hatch. -/

/-- A validation rule: name plus check.  The check receives the dynamic
(possibly nil) value and returns an error message or nil. -/
structure Validation where
  name : String
  check : Option Value → Option String

def validateRequired : Validation where
  name := "required"
  check := fun v =>
    match v with
    | none => some "value is required"
    | some (.vString s) => if s = "" then some "value is required (empty string)" else none
    | some _ => none

/-- validateMin: the float64 bound is an exact rational here; Go converts
an int64 value to float64 before comparing, exact at the magnitudes this
development uses.  The message for the float64 case abbreviates Go's
six-decimal %f rendering; no claim exercises it. -/
def validateMin (m : ℚ) : Validation where
  name := "min(" ++ goFmtQ m ++ ")"
  check := fun v =>
    match v with
    | some (.vInt64 n) =>
      if (mkRat n 1).blt m then
        some ("value " ++ intToDecimal n ++ " is less than minimum " ++ goFmtQ m)
      else none
    | some (.vFloat64 q) =>
      if q.blt m then
        some ("value " ++ goFmtQ q ++ " is less than minimum " ++ goFmtQ m)
      else none
    | _ => none

def validateMax (m : ℚ) : Validation where
  name := "max(" ++ goFmtQ m ++ ")"
  check := fun v =>
    match v with
    | some (.vInt64 n) =>
      if m.blt (mkRat n 1) then
        some ("value " ++ intToDecimal n ++ " is greater than maximum " ++ goFmtQ m)
      else none
    | some (.vFloat64 q) =>
      if m.blt q then
        some ("value " ++ goFmtQ q ++ " is greater than maximum " ++ goFmtQ m)
      else none
    | _ => none

/-- validateMinLength (Go len counts bytes; modelled with utf8ByteSize). -/
def validateMinLength (m : Int) : Validation where
  name := "minLength(" ++ intToDecimal m ++ ")"
  check := fun v =>
    match v with
    | some (.vString s) =>
      if (s.utf8ByteSize : Int) < m then
        some ("value length " ++ intToDecimal s.utf8ByteSize ++ " is less than minimum " ++ intToDecimal m)
      else none
    | _ => none

def validateMaxLength (m : Int) : Validation where
  name := "maxLength(" ++ intToDecimal m ++ ")"
  check := fun v =>
    match v with
    | some (.vString s) =>
      if m < (s.utf8ByteSize : Int) then
        some ("value length " ++ intToDecimal s.utf8ByteSize ++ " is greater than maximum " ++ intToDecimal m)
      else none
    | _ => none

/-- validateOneOf.  (Go renders the offending value between single quote
characters; the quotes are left out here.) -/
def validateOneOf (allowed : List String) : Validation where
  name := "oneOf([" ++ joinWith " " allowed ++ "])"
  check := fun v =>
    match v with
    | some (.vString s) =>
      if allowed.contains s then none
      else some ("value " ++ s ++ " is not one of: [" ++ joinWith " " allowed ++ "]")
    | _ => none

def validateMinDuration (m : Int) : Validation where
  name := "minDuration(" ++ goDurationRepr m ++ ")"
  check := fun v =>
    match v with
    | some (.vDuration d) =>
      if d < m then
        some ("duration " ++ goDurationRepr d ++ " is less than minimum " ++ goDurationRepr m)
      else none
    | _ => none

def validateMaxDuration (m : Int) : Validation where
  name := "maxDuration(" ++ goDurationRepr m ++ ")"
  check := fun v =>
    match v with
    | some (.vDuration d) =>
      if m < d then
        some ("duration " ++ goDurationRepr d ++ " is greater than maximum " ++ goDurationRepr m)
      else none
    | _ => none

def validateMinItems (m : Int) : Validation where
  name := "minItems(" ++ intToDecimal m ++ ")"
  check := fun v =>
    match v with
    | some (.vStringSlice xs) =>
      if (xs.length : Int) < m then
        some ("array has " ++ intToDecimal xs.length ++ " items, minimum is " ++ intToDecimal m)
      else none
    | some (.vInt64Slice xs) =>
      if (xs.length : Int) < m then
        some ("array has " ++ intToDecimal xs.length ++ " items, minimum is " ++ intToDecimal m)
      else none
    | _ => none

def validateMaxItems (m : Int) : Validation where
  name := "maxItems(" ++ intToDecimal m ++ ")"
  check := fun v =>
    match v with
    | some (.vStringSlice xs) =>
      if m < (xs.length : Int) then
        some ("array has " ++ intToDecimal xs.length ++ " items, maximum is " ++ intToDecimal m)
      else none
    | some (.vInt64Slice xs) =>
      if m < (xs.length : Int) then
        some ("array has " ++ intToDecimal xs.length ++ " items, maximum is " ++ intToDecimal m)
      else none
    | _ => none

/-! ### Definition (definition.go) -/

/-- A per-key declaration produced by the fluent builder; the field
defaults mirror newDefinitionBuilder (TypeString, delimiter ","). -/
structure Definition where
  key : String := ""
  valueType : ValueType := TypeString
  envVar : String := ""
  flag : String := ""
  defaultValue : Option Value := none
  required : Bool := false
  secret : Bool := false
  delimiter : String := ","
  validations : List Validation := []
  description : String := ""

/-! ### File configuration (files.go) -/

/-- The generic key/value tree a file loader produces (the core never sees
file syntax, only this tree).  fInt covers Go's int and int64 cases of
resolveValueWithFiles; fMap is any value the stringification switch does
not support. -/
inductive FileValue where
  | fString (s : String)
  | fBool (b : Bool)
  | fInt (n : Int)
  | fFloat (q : ℚ)
  | fArr (xs : List FileValue)
  | fMap (entries : List (String × FileValue))

/-- Go map read, modelled on an association list. -/
def alookup {α : Type} : List (String × α) → String → Option α
  | [], _ => none
  | e :: rest, k => if e.1 = k then some e.2 else alookup rest k

structure FileConfig where
  data : List (String × FileValue)
  environment : String := ""

/-- The explicit ambient inputs of the resolver: os.Getenv, the parsed
flag values (flagValues of config.go, keyed by definition key, "" for an
unset or empty flag), and the loaded file configuration. -/
structure Sources where
  env : String → String
  flags : String → String
  fileConfig : Option FileConfig := none

/-- getFileValue (files.go): environment-specific override first
(environments.{env}.{key}, then its lowercase variant), then the
top-level key, then its lowercase variant. -/
def getFileValue (fc : Option FileConfig) (key : String) : Option FileValue :=
  match fc with
  | none => none
  | some f =>
    let envHit : Option FileValue :=
      if f.environment ≠ "" then
        match alookup f.data "environments" with
        | some (.fMap envMap) =>
          match alookup envMap f.environment with
          | some (.fMap cur) =>
            match alookup cur key with
            | some v => some v
            | none => alookup cur (goToLower key)
          | _ => none
        | _ => none
      else none
    match envHit with
    | some v => some v
    | none =>
      match alookup f.data key with
      | some v => some v
      | none => alookup f.data (goToLower key)

mutual
/-- fmt's %v on a generic file-tree value (used for the elements of file
arrays; Go renders maps with sorted keys, a display detail no claim
exercises). -/
def goSprintFileValue : FileValue → String
  | .fString s => s
  | .fBool b => if b then "true" else "false"
  | .fInt n => intToDecimal n
  | .fFloat q => goFmtQ q
  | .fArr xs => "[" ++ joinWith " " (goSprintFileValues xs) ++ "]"
  | .fMap es => "map[" ++ joinWith " " (goSprintFileEntries es) ++ "]"

def goSprintFileValues : List FileValue → List String
  | [] => []
  | x :: xs => goSprintFileValue x :: goSprintFileValues xs

def goSprintFileEntries : List (String × FileValue) → List String
  | [] => []
  | e :: es => (e.1 ++ ":" ++ goSprintFileValue e.2) :: goSprintFileEntries es
end

/-- The file-value stringification switch at the top of
resolveValueWithFiles: scalars via %v, arrays joined with the
Definition's delimiter, anything else is an unsupported-type error. -/
def fileValueToRaw (fv : FileValue) (delimiter : String) : Except String String :=
  match fv with
  | .fString v => .ok v
  | .fBool v => .ok (if v then "true" else "false")
  | .fInt v => .ok (intToDecimal v)
  | .fFloat v => .ok (goFmtQ v)
  | .fArr v => .ok (joinWith delimiter (goSprintFileValues v))
  | .fMap _ => .error "unsupported file value type"

/-! ### The resolver (resolveValueWithFiles, files.go) -/

/-- The (any, string, error) triple resolveValueWithFiles returns: a
possibly-nil dynamic value, a source tag, and a possibly-nil error. -/
structure Resolved where
  value : Option Value
  source : String
  err : Option String
deriving DecidableEq, Repr

/-- The validation loop of the parse path: run the rules in order on the
parsed value, returning the first failure. -/
def firstFail : List Validation → Option Value → Option String
  | [], _ => none
  | r :: rest, v =>
    match r.check v with
    | some e => some e
    | none => firstFail rest v

/-- The validation loop of the default path: identical, except rules named
"required" are skipped. -/
def firstFailNonRequired : List Validation → Value → Option String
  | [], _ => none
  | r :: rest, v =>
    if r.name = "required" then firstFailNonRequired rest v
    else
      match r.check (some v) with
      | some e => some e
      | none => firstFailNonRequired rest v

/-- The body of resolveValueWithFiles after its file-lookup block, taking
the rawValue/source pair that block produced ("" / "" when no file value
was found).  Priorities 2–4 and the terminal parse/validate steps mirror
the source lines in order: environment variable, then command-line flag,
then default (validated with the required rule skipped), then the
required/absent outcome, then parse and validate. -/
def resolveFromRaw (c : Sources) (key : String) (d : Definition)
    (raw0 source0 : String) : Resolved :=
  let p1 : String × String :=
    if raw0 = "" ∧ d.envVar ≠ "" ∧ c.env d.envVar ≠ "" then (c.env d.envVar, "env")
    else (raw0, source0)
  let p2 : String × String :=
    if p1.1 = "" ∧ d.flag ≠ "" ∧ c.flags key ≠ "" then (c.flags key, "flag")
    else p1
  let rawValue := p2.1
  let source := p2.2
  if rawValue = "" ∧ d.defaultValue.isSome then
    match d.defaultValue with
    | some dv =>
      match firstFailNonRequired d.validations dv with
      | some e => ⟨some dv, "default", some e⟩
      | none => ⟨some dv, "default", none⟩
    | none => ⟨none, "none", none⟩
  else if rawValue = "" then
    if d.required then
      ⟨none, "none",
        some ("required value not provided (set in file, " ++ d.envVar ++ " or --" ++ d.flag ++ ")")⟩
    else ⟨none, "none", none⟩
  else
    match parseValue rawValue d.valueType d.delimiter with
    | .error e => ⟨some (.vString rawValue), source, some e⟩
    | .ok pv =>
      match firstFail d.validations pv with
      | some e => ⟨pv, source, some e⟩
      | none => ⟨pv, source, none⟩

/-- resolveValueWithFiles: priority 1 is the file configuration (its
stringification error returns immediately with source "file"; otherwise
source "file" is recorded even for a raw value that stringifies to "",
exactly as in the source, where the environment variable then overrides
it). -/
def resolveValueWithFiles (c : Sources) (key : String) (d : Definition) : Resolved :=
  match getFileValue c.fileConfig key with
  | some fv =>
    match fileValueToRaw fv d.delimiter with
    | .error e => ⟨none, "file", some e⟩
    | .ok s => resolveFromRaw c key d s "file"
  | none => resolveFromRaw c key d "" ""

/-! ### Secrets (secret.go) -/

/-- A memguard-backed secret handle: `buffer = none` models both the
never-set handle (newSecret "") and a destroyed handle. -/
structure Secret where
  buffer : Option String := none
deriving DecidableEq, Repr

def newSecret (value : String) : Secret :=
  if value = "" then ⟨none⟩ else ⟨some value⟩

def Secret.destroy (_ : Secret) : Secret := ⟨none⟩

def Secret.isSet (s : Secret) : Bool :=
  match s.buffer with
  | some v => 0 < v.utf8ByteSize
  | none => false

def Secret.size (s : Secret) : Nat :=
  match s.buffer with
  | some v => v.utf8ByteSize
  | none => 0

/-- The String method of Secret. -/
def Secret.asString (s : Secret) : String :=
  match s.buffer with
  | some v => v
  | none => ""

/-! ### Config state, errors and Process (config.go, errors.go) -/

/-- ConfigError: one structured resolution-failure record. -/
structure ConfigError where
  key : String
  source : String
  value : String
  message : String
deriving DecidableEq, Repr

/-- maskSecret (errors.go).  Go indexes bytes; the model indexes
characters, which agrees on the ASCII strings this development masks. -/
def maskSecret (value : String) : String :=
  if value.length ≤ 4 then "****"
  else
    String.mk (value.toList.take 2) ++
      String.mk (List.replicate (value.length - 4) '*') ++
      String.mk (value.toList.drop (value.length - 2))

/-- The Config fields Process touches.  The definitions map is an ordered
association list (Go iterates its map in unspecified order; no claim
depends on the order).  Fields the claims never consult (the flag set,
commands, middleware, override warnings) are left to the Sources record
or omitted. -/
structure ConfigState where
  definitions : List (String × Definition)
  values : List (String × Option Value) := []
  secrets : List (String × Secret) := []
  processed : Bool := false

/-- New + a sequence of Define calls: every builder registers its
Definition into the config's map at Define time. -/
def newConfig (defs : List (String × Definition)) : ConfigState :=
  { definitions := defs }

/-- Go map write, modelled on an association list. -/
def assocSet {α : Type} : List (String × α) → String → α → List (String × α)
  | [], k, v => [(k, v)]
  | e :: rest, k, v => if e.1 = k then (k, v) :: rest else e :: assocSet rest k v

/-- The displayValue computation of Process's error branch. -/
def displayValue (d : Definition) (r : Resolved) : String :=
  match r.value with
  | none => ""
  | some v => if d.secret then maskSecret (goSprintValue v) else goSprintValue v

/-- One iteration of Process's per-definition loop: on error, append one
ConfigError and continue; otherwise store the value — secrets go to the
vault (stringified) with the "[SECRET]" placeholder written to the
general value map, everything else (nil included) goes to the general
value map. -/
def processStep (src : Sources) (acc : ConfigState × List ConfigError)
    (kd : String × Definition) : ConfigState × List ConfigError :=
  let st := acc.1
  let errs := acc.2
  let key := kd.1
  let d := kd.2
  let r := resolveValueWithFiles src key d
  match r.err with
  | some msg => (st, errs ++ [⟨key, r.source, displayValue d r, msg⟩])
  | none =>
    match r.value with
    | some v =>
      if d.secret then
        ({ st with
            secrets := assocSet st.secrets key (newSecret (goSprintValue v)),
            values := assocSet st.values key (some (.vString "[SECRET]")) }, errs)
      else ({ st with values := assocSet st.values key (some v) }, errs)
    | none => ({ st with values := assocSet st.values key none }, errs)

/-- Process (config.go): clear previous values and destroy all previous
secret handles when re-processing, then resolve every definition,
collecting one error per failing key.  The handles destroyed by the
re-processing branch are returned so their destruction is observable
(Go's DestroyAll destroys each handle before replacing the store).
Flag registration and command-line parsing are outside the model: the
Sources record already holds the parsed flag values.  The override-warning
walk at the end of the source writes only diagnostics and is omitted. -/
def Process (c : ConfigState) (src : Sources) :
    ConfigState × List ConfigError × List (String × Secret) :=
  let cleared : ConfigState × List (String × Secret) :=
    if c.processed then
      ({ c with values := [], secrets := [] },
       c.secrets.map (fun p => (p.1, p.2.destroy)))
    else (c, [])
  let c2 := { cleared.1 with processed := true }
  let folded := c2.definitions.foldl (processStep src) (c2, [])
  (folded.1, folded.2, cleared.2)

/-! ### Read API (get.go) -/

/-- The Go type argument of the generic getter Get[T] (gAny is `any`;
a type assertion on a nil interface value fails for every T, including
`any`). -/
inductive GoType where
  | gAny
  | gString
  | gInt64
  | gFloat64
  | gBool
  | gDuration
  | gStringSlice
  | gInt64Slice
deriving DecidableEq, Repr

/-- Whether the Go type assertion value.(T) succeeds on a non-nil value. -/
def typeMatches (t : GoType) (v : Value) : Bool :=
  match t, v with
  | .gAny, _ => true
  | .gString, .vString _ => true
  | .gInt64, .vInt64 _ => true
  | .gFloat64, .vFloat64 _ => true
  | .gBool, .vBool _ => true
  | .gDuration, .vDuration _ => true
  | .gStringSlice, .vStringSlice _ => true
  | .gInt64Slice, .vInt64Slice _ => true
  | _, _ => false

/-- The three panic sites of Get[T] plus its success outcome. -/
inductive GetOutcome where
  | panicNotFound
  | panicSecret
  | panicTypeAssert
  | ok (v : Value)
deriving DecidableEq, Repr

/-- Get[T] (get.go): values-map lookup (missing key panics), then the
secret guard, then the type assertion — which fails on a nil stored
value for every T. -/
def GetTyped (c : ConfigState) (t : GoType) (key : String) : GetOutcome :=
  match alookup c.values key with
  | none => .panicNotFound
  | some value =>
    let isSecretDef :=
      match alookup c.definitions key with
      | some d => d.secret
      | none => false
    if isSecretDef then .panicSecret
    else
      match value with
      | none => .panicTypeAssert
      | some v => if typeMatches t v then .ok v else .panicTypeAssert

/-- Whether a GetTyped outcome is one of the panic sites. -/
def GetOutcome.isPanic : GetOutcome → Bool
  | .ok _ => false
  | _ => true

/-- GetOr[T]'s outcome: either the stored value or the caller's default. -/
inductive GetOrOutcome where
  | defaulted
  | got (v : Value)
deriving DecidableEq, Repr

/-- GetOr (get.go): absent entry, nil entry, and failed type assertion all
fall back to the caller's default. -/
def GetOr (c : ConfigState) (t : GoType) (key : String) : GetOrOutcome :=
  match alookup c.values key with
  | none => .defaulted
  | some none => .defaulted
  | some (some v) => if typeMatches t v then .got v else .defaulted

/-- Has (get.go): the key exists and its stored value is non-nil. -/
def ConfigState.Has (c : ConfigState) (key : String) : Bool :=
  match alookup c.values key with
  | some (some _) => true
  | _ => false

/-- GetSecret / SecretStore.Get: an unknown key yields the empty handle. -/
def GetSecret (c : ConfigState) (key : String) : Secret :=
  match alookup c.secrets key with
  | some s => s
  | none => ⟨none⟩

/-! ### Specification-side helpers (stated over the model above) -/

/-- The error record Process appends for one definition, when its
resolution fails. -/
def stepErr (src : Sources) (kd : String × Definition) : Option ConfigError :=
  match (resolveValueWithFiles src kd.1 kd.2).err with
  | some msg =>
    some ⟨kd.1, (resolveValueWithFiles src kd.1 kd.2).source,
      displayValue kd.2 (resolveValueWithFiles src kd.1 kd.2), msg⟩
  | none => none

/-- The entry Process writes into the general value map for one
successfully resolved definition. -/
def storedValue (src : Sources) (kd : String × Definition) : Option Value :=
  match (resolveValueWithFiles src kd.1 kd.2).value with
  | some v => if kd.2.secret then some (.vString "[SECRET]") else some v
  | none => none

/-- The vault entry Process writes for one successfully resolved
definition (none when nothing is written). -/
def storedSecret (src : Sources) (kd : String × Definition) : Option Secret :=
  match (resolveValueWithFiles src kd.1 kd.2).value with
  | some v => if kd.2.secret then some (newSecret (goSprintValue v)) else none
  | none => none

/-- The invariant claimed by the specification, word for word: after a
successful Process, every Definition key has an entry in exactly one of
the general value map and the secret vault, except keys whose resolution
yielded no value and that are not required, which are absent from both. -/
def specExactlyOneInvariant (st : ConfigState) (src : Sources) : Bool :=
  st.definitions.all fun p =>
    if (resolveValueWithFiles src p.1 p.2).value = none ∧ p.2.required = false then
      (alookup st.values p.1).isNone && (alookup st.secrets p.1).isNone
    else
      ((alookup st.values p.1).isSome != (alookup st.secrets p.1).isSome)

/-! ### Concrete fixtures used by the claim theorems and witnesses -/

/-- A Sources record with a single environment variable set and no flags
or files. -/
def envOnly (name value : String) : Sources where
  env := fun n => if n = name then value else ""
  flags := fun _ => ""

/-- A Sources record with nothing set. -/
def noSources : Sources where
  env := fun _ => ""
  flags := fun _ => ""

/-- Define("PORT").String().Env("PORT").Flag("port") -/
def portDef : Definition :=
  { key := "PORT", valueType := TypeString, envVar := "PORT", flag := "port" }

/-- Environment PORT=7070 with parsed flag --port=9090 and no files. -/
def bothFlagAndEnv : Sources where
  env := fun n => if n = "PORT" then "7070" else ""
  flags := fun k => if k = "PORT" then "9090" else ""

/-- Define("API_KEY").String().Env("API_KEY").Required().Secret() -/
def apiKeyDef : Definition :=
  { key := "API_KEY", valueType := TypeString, envVar := "API_KEY",
    required := true, secret := true, validations := [validateRequired] }

/-- Define("OPT").String(): no sources, no default, not required. -/
def optDef : Definition := { key := "OPT" }

/-- The two-key config of the C2 counterexample: a secret key resolved
from the environment next to a valueless optional key. -/
def c2Defs : List (String × Definition) := [("API_KEY", apiKeyDef), ("OPT", optDef)]

/-- Define("REQ").String().Env("REQ_ENV").Flag("req").Required():
a required key no source supplies. -/
def reqDef : Definition :=
  { key := "REQ", valueType := TypeString, envVar := "REQ_ENV", flag := "req",
    required := true, validations := [validateRequired] }

/-- Define("OK").Int64().Default(int64(7)). -/
def okDef : Definition :=
  { key := "OK", valueType := TypeInt64, defaultValue := some (.vInt64 7) }

def c4Defs : List (String × Definition) := [("REQ", reqDef), ("OK", okDef)]

/-- Define("HOST").String().Env("HOST"). -/
def hostDef : Definition :=
  { key := "HOST", valueType := TypeString, envVar := "HOST" }

/-- A file that stores the empty string for HOST, with the HOST
environment variable also set. -/
def fileEmptyWithEnv : Sources where
  env := fun n => if n = "HOST" then "envhost" else ""
  flags := fun _ => ""
  fileConfig := some { data := [("HOST", .fString "")] }

/-- Define("PORT").Int64().Env("PORT").Range(1, 65535). -/
def portIntDef : Definition :=
  { key := "PORT", valueType := TypeInt64, envVar := "PORT",
    validations := [validateMin (mkRat 1 1), validateMax (mkRat 65535 1)] }

/-- A file storing port 8080 while the environment says 9999. -/
def filePortWithEnv : Sources where
  env := fun n => if n = "PORT" then "9999" else ""
  flags := fun _ => ""
  fileConfig := some { data := [("port", .fInt 8080)] }

/-- Define("SIZE").Int64().Required().Min(10000).Default(int64(8080)):
a default that fails a non-required rule. -/
def sizeDef : Definition :=
  { key := "SIZE", valueType := TypeInt64, required := true,
    defaultValue := some (.vInt64 8080),
    validations := [validateRequired, validateMin (mkRat 10000 1)] }

/-- The processed outcome of the C2 counterexample scenario. -/
def c2Run : ConfigState × List ConfigError × List (String × Secret) :=
  Process (newConfig c2Defs) (envOnly "API_KEY" "s3cr3t")

/-- The processed outcome of the C3 secret scenario. -/
def c3Run : ConfigState × List ConfigError × List (String × Secret) :=
  Process (newConfig [("API_KEY", apiKeyDef)]) (envOnly "API_KEY" "s3cr3t-val")

/-- The processed outcome of the C4 witness scenario. -/
def c4Run : ConfigState × List ConfigError × List (String × Secret) :=
  Process (newConfig c4Defs) noSources

/-- The processed outcome of the C10 scenario: one optional key, nothing
set anywhere. -/
def c10Run : ConfigState × List ConfigError × List (String × Secret) :=
  Process (newConfig [("OPT", optDef)]) noSources

/-! ## Association-list lemmas -/

theorem alookup_assocSet_self {α : Type} (l : List (String × α)) (k : String) (v : α) :
    alookup (assocSet l k v) k = some v := by
  induction l with
  | nil => simp [assocSet, alookup]
  | cons e rest ih =>
    by_cases h : e.1 = k
    · simp [assocSet, h, alookup]
    · simp [assocSet, h, alookup, ih]

theorem alookup_assocSet_ne {α : Type} (l : List (String × α)) (k k' : String) (v : α)
    (h : k ≠ k') : alookup (assocSet l k v) k' = alookup l k' := by
  induction l with
  | nil => simp [assocSet, alookup, h]
  | cons e rest ih =>
    by_cases he : e.1 = k
    · have ha : assocSet (e :: rest) k v = (k, v) :: rest := by simp [assocSet, he]
      rw [ha]
      have hk' : ¬k = k' := h
      simp [alookup, hk', he]
    · have ha : assocSet (e :: rest) k v = e :: assocSet rest k v := by simp [assocSet, he]
      rw [ha]
      by_cases h2 : e.1 = k' <;> simp [alookup, h2, ih]

/-! ## processStep lemmas -/

theorem processStep_meta (src : Sources) (acc : ConfigState × List ConfigError)
    (kd : String × Definition) :
    (processStep src acc kd).1.definitions = acc.1.definitions ∧
    (processStep src acc kd).1.processed = acc.1.processed := by
  unfold processStep
  rcases h : (resolveValueWithFiles src kd.1 kd.2).err with _ | msg
  · rcases hv : (resolveValueWithFiles src kd.1 kd.2).value with _ | v
    · simp [h, hv]
    · by_cases hs : kd.2.secret <;> simp [h, hv, hs]
  · simp [h]

theorem processStep_errs (src : Sources) (acc : ConfigState × List ConfigError)
    (kd : String × Definition) :
    (processStep src acc kd).2 = acc.2 ++ (stepErr src kd).toList := by
  unfold processStep stepErr
  rcases h : (resolveValueWithFiles src kd.1 kd.2).err with _ | msg
  · rcases hv : (resolveValueWithFiles src kd.1 kd.2).value with _ | v
    · simp [h, hv]
    · by_cases hs : kd.2.secret <;> simp [h, hv, hs]
  · simp [h]

theorem processStep_lookup_ne (src : Sources) (acc : ConfigState × List ConfigError)
    (kd : String × Definition) (k : String) (hne : kd.1 ≠ k) :
    alookup (processStep src acc kd).1.values k = alookup acc.1.values k ∧
    alookup (processStep src acc kd).1.secrets k = alookup acc.1.secrets k := by
  unfold processStep
  rcases h : (resolveValueWithFiles src kd.1 kd.2).err with _ | msg
  · rcases hv : (resolveValueWithFiles src kd.1 kd.2).value with _ | v
    · simp [h, hv, alookup_assocSet_ne _ _ _ _ hne]
    · by_cases hs : kd.2.secret <;> simp [h, hv, hs, alookup_assocSet_ne _ _ _ _ hne]
  · simp [h]

theorem processStep_lookup_self (src : Sources) (acc : ConfigState × List ConfigError)
    (kd : String × Definition) (hok : (resolveValueWithFiles src kd.1 kd.2).err = none) :
    alookup (processStep src acc kd).1.values kd.1 = some (storedValue src kd) ∧
    alookup (processStep src acc kd).1.secrets kd.1 =
      (storedSecret src kd).elim (alookup acc.1.secrets kd.1) some := by
  unfold processStep storedValue storedSecret
  rcases hv : (resolveValueWithFiles src kd.1 kd.2).value with _ | v
  · simp [hok, hv, alookup_assocSet_self]
  · by_cases hs : kd.2.secret <;> simp [hok, hv, hs, alookup_assocSet_self]

/-! ## foldl lemmas -/

theorem foldl_meta (src : Sources) (defs : List (String × Definition)) :
    ∀ (st : ConfigState) (errs : List ConfigError),
    ((defs.foldl (processStep src) (st, errs)).1.definitions = st.definitions ∧
     (defs.foldl (processStep src) (st, errs)).1.processed = st.processed) := by
  induction defs with
  | nil => intro st errs; exact ⟨rfl, rfl⟩
  | cons kd rest ih =>
    intro st errs
    have h := processStep_meta src (st, errs) kd
    have h2 := ih (processStep src (st, errs) kd).1 (processStep src (st, errs) kd).2
    simp only [List.foldl_cons]
    exact ⟨h2.1.trans h.1, h2.2.trans h.2⟩

theorem foldl_errs (src : Sources) (defs : List (String × Definition)) :
    ∀ (st : ConfigState) (errs : List ConfigError),
    (defs.foldl (processStep src) (st, errs)).2 = errs ++ defs.filterMap (stepErr src) := by
  induction defs with
  | nil => intro st errs; simp
  | cons kd rest ih =>
    intro st errs
    simp only [List.foldl_cons, List.filterMap_cons]
    have hp := processStep_errs src (st, errs) kd
    have h2 := ih (processStep src (st, errs) kd).1 (processStep src (st, errs) kd).2
    rw [h2, hp]
    cases h : stepErr src kd <;> simp [List.append_assoc]

theorem foldl_lookup_nmem (src : Sources) (defs : List (String × Definition)) (k : String)
    (h : ∀ kd ∈ defs, kd.1 ≠ k) :
    ∀ (st : ConfigState) (errs : List ConfigError),
    alookup ((defs.foldl (processStep src) (st, errs)).1).values k = alookup st.values k ∧
    alookup ((defs.foldl (processStep src) (st, errs)).1).secrets k = alookup st.secrets k := by
  induction defs with
  | nil => intro st errs; exact ⟨rfl, rfl⟩
  | cons kd rest ih =>
    intro st errs
    have hd := processStep_lookup_ne src (st, errs) kd k (h kd (List.mem_cons_self kd rest))
    have h2 := ih (fun kd' h' => h kd' (List.mem_cons_of_mem kd h'))
      (processStep src (st, errs) kd).1 (processStep src (st, errs) kd).2
    simp only [List.foldl_cons]
    exact ⟨h2.1.trans hd.1, h2.2.trans hd.2⟩

theorem foldl_lookup_mem (src : Sources) (defs : List (String × Definition))
    (k : String) (d : Definition) :
    ∀ (st : ConfigState) (errs : List ConfigError),
    (k, d) ∈ defs → (defs.map Prod.fst).Nodup →
    (resolveValueWithFiles src k d).err = none →
    alookup ((defs.foldl (processStep src) (st, errs)).1).values k =
      some (storedValue src (k, d)) ∧
    alookup ((defs.foldl (processStep src) (st, errs)).1).secrets k =
      (storedSecret src (k, d)).elim (alookup st.secrets k) some := by
  induction defs with
  | nil => intro st errs hmem; cases hmem
  | cons kd rest ih =>
    intro st errs hmem hnd hok
    have hnd' : ((kd :: rest).map Prod.fst).Nodup = (kd.1 :: rest.map Prod.fst).Nodup := by simp
    rw [hnd'] at hnd
    rcases List.mem_cons.mp hmem with heq | hmem'
    · subst heq
      have hk : ∀ kd' ∈ rest, kd'.1 ≠ k := by
        intro kd' h' hcon
        have hm : kd'.1 ∈ rest.map Prod.fst := List.mem_map_of_mem Prod.fst h'
        rw [hcon] at hm
        exact (List.nodup_cons.mp hnd).1 hm
      have hstep := processStep_lookup_self src (st, errs) (k, d) hok
      have hrest := foldl_lookup_nmem src rest k hk
        (processStep src (st, errs) (k, d)).1 (processStep src (st, errs) (k, d)).2
      simp only [List.foldl_cons]
      exact ⟨hrest.1.trans hstep.1, hrest.2.trans hstep.2⟩
    · have hki : k ∈ rest.map Prod.fst := List.mem_map_of_mem Prod.fst hmem'
      have hne : kd.1 ≠ k := by
        intro hcon
        rw [← hcon] at hki
        exact (List.nodup_cons.mp hnd).1 hki
      have hstep := processStep_lookup_ne src (st, errs) kd k hne
      have h2 := ih (processStep src (st, errs) kd).1 (processStep src (st, errs) kd).2
        hmem' (List.nodup_cons.mp hnd).2 hok
      simp only [List.foldl_cons]
      refine ⟨h2.1, ?_⟩
      rw [h2.2, hstep.2]

/-! ## Error-record lemmas -/

theorem stepErr_key (src : Sources) (kd : String × Definition) (e : ConfigError)
    (h : stepErr src kd = some e) : e.key = kd.1 := by
  unfold stepErr at h
  rcases herr : (resolveValueWithFiles src kd.1 kd.2).err with _ | msg
  · simp [herr] at h
  · simp [herr] at h
    rw [← h]

theorem filter_errs_nil (src : Sources) (defs : List (String × Definition)) (k : String)
    (h : ∀ kd ∈ defs, kd.1 ≠ k) :
    (defs.filterMap (stepErr src)).filter (fun e => e.key = k) = [] := by
  induction defs with
  | nil => rfl
  | cons kd rest ih =>
    have ih' := ih (fun kd' h' => h kd' (List.mem_cons_of_mem kd h'))
    cases hs : stepErr src kd with
    | none => simpa [List.filterMap_cons, hs] using ih'
    | some e =>
      have hk : e.key ≠ k := by
        rw [stepErr_key src kd e hs]
        exact h kd (List.mem_cons_self kd rest)
      simp [List.filterMap_cons, hs, List.filter_cons, hk, ih']

theorem filter_errs_one (src : Sources) (defs : List (String × Definition))
    (k : String) (d : Definition) (hmem : (k, d) ∈ defs)
    (hnd : (defs.map Prod.fst).Nodup) (e : ConfigError) (hfail : stepErr src (k, d) = some e) :
    ((defs.filterMap (stepErr src)).filter (fun er => er.key = k)).length = 1 := by
  induction defs with
  | nil => cases hmem
  | cons kd rest ih =>
    have hnd2 : (kd.1 :: rest.map Prod.fst).Nodup := by simpa using hnd
    rcases List.mem_cons.mp hmem with heq | hmem'
    · subst heq
      have hk : ∀ kd' ∈ rest, kd'.1 ≠ k := by
        intro kd' h' hcon
        have hm : kd'.1 ∈ rest.map Prod.fst := List.mem_map_of_mem Prod.fst h'
        rw [hcon] at hm
        exact (List.nodup_cons.mp hnd2).1 hm
      have hkey : e.key = k := stepErr_key src (k, d) e hfail
      simp [List.filterMap_cons, hfail, List.filter_cons, hkey,
        filter_errs_nil src rest k hk]
    · have hki : k ∈ rest.map Prod.fst := List.mem_map_of_mem Prod.fst hmem'
      have hne : kd.1 ≠ k := by
        intro hcon
        rw [← hcon] at hki
        exact (List.nodup_cons.mp hnd2).1 hki
      have ih' := ih hmem' (List.nodup_cons.mp hnd2).2
      cases hs : stepErr src kd with
      | none => simpa [List.filterMap_cons, hs] using ih'
      | some e' =>
        have hk : e'.key ≠ k := by
          rw [stepErr_key src kd e' hs]; exact hne
        simpa [List.filterMap_cons, hs, List.filter_cons, hk] using ih'

/-! ## Resolver unfolding lemmas -/

theorem firstFailNonRequired_eq (vs : List Validation) (v : Value) :
    firstFailNonRequired vs v =
      firstFail (vs.filter (fun r => r.name ≠ "required")) (some v) := by
  induction vs with
  | nil => rfl
  | cons r rest ih =>
    by_cases h : r.name = "required"
    · simp [firstFailNonRequired, h, List.filter_cons, ih]
    · cases hc : r.check (some v) <;>
        simp [firstFailNonRequired, firstFail, h, List.filter_cons, hc, ih]

theorem resolveFromRaw_noRaw (c : Sources) (key : String) (d : Definition)
    (henv : d.envVar = "" ∨ c.env d.envVar = "")
    (hflag : d.flag = "" ∨ c.flags key = "") :
    resolveFromRaw c key d "" "" =
      (match d.defaultValue with
       | some dv =>
         match firstFailNonRequired d.validations dv with
         | some e => ⟨some dv, "default", some e⟩
         | none => ⟨some dv, "default", none⟩
       | none =>
         if d.required then
           ⟨none, "none",
             some ("required value not provided (set in file, " ++ d.envVar ++ " or --" ++ d.flag ++ ")")⟩
         else ⟨none, "none", none⟩) := by
  have h1 : ¬(d.envVar ≠ "" ∧ c.env d.envVar ≠ "") := by
    rcases henv with h | h <;> simp [h]
  have h2 : ¬(d.flag ≠ "" ∧ c.flags key ≠ "") := by
    rcases hflag with h | h <;> simp [h]
  cases hd : d.defaultValue with
  | some dv =>
    cases hf : firstFailNonRequired d.validations dv <;>
      simp [resolveFromRaw, h1, h2, hd, hf]
  | none => simp [resolveFromRaw, h1, h2, hd]

theorem resolveFromRaw_raw (c : Sources) (key : String) (d : Definition)
    (s source0 : String) (hs : s ≠ "") :
    resolveFromRaw c key d s source0 =
      (match parseValue s d.valueType d.delimiter with
       | .error e => ⟨some (.vString s), source0, some e⟩
       | .ok pv =>
         match firstFail d.validations pv with
         | some e => ⟨pv, source0, some e⟩
         | none => ⟨pv, source0, none⟩) := by
  cases hp : parseValue s d.valueType d.delimiter with
  | error e => simp [resolveFromRaw, hs, hp]
  | ok pv =>
    cases hf : firstFail d.validations pv <;>
      simp [resolveFromRaw, hs, hp, hf]

/-! ## Decimal-digit lemmas -/

theorem charDigit_digitChar (d : Nat) (h : d < 10) : charDigit (Nat.digitChar d) = d := by
  interval_cases d <;> rfl

theorem digitChar_isDigit (d : Nat) (h : d < 10) : (Nat.digitChar d).isDigit = true := by
  interval_cases d <;> rfl

theorem digitsToNat_concat (xs : List Char) (c : Char) :
    digitsToNat (xs ++ [c]) = digitsToNat xs * 10 + charDigit c := by
  unfold digitsToNat
  rw [List.foldl_append]
  rfl

theorem natDigitsAux_spec : ∀ (fuel n : Nat), n < fuel →
    digitsToNat (natDigitsAux fuel n) = n ∧
    natDigitsAux fuel n ≠ [] ∧
    ∀ c ∈ natDigitsAux fuel n, c.isDigit = true := by
  intro fuel
  induction fuel with
  | zero => intro n h; exact absurd h (Nat.not_lt_zero n)
  | succ f ih =>
    intro n h
    by_cases h10 : n < 10
    · refine ⟨?_, ?_, ?_⟩
      · simp [natDigitsAux, h10, digitsToNat, charDigit_digitChar n h10]
      · simp [natDigitsAux, h10]
      · intro c hc
        simp [natDigitsAux, h10] at hc
        rw [hc]
        exact digitChar_isDigit n h10
    · have hpos : 0 < n := by omega
      have hdiv : n / 10 < f := by
        have := Nat.div_lt_self hpos (by omega : 1 < 10)
        omega
      have ihd := ih (n / 10) hdiv
      have hmod : n % 10 < 10 := Nat.mod_lt n (by omega)
      have hunf : natDigitsAux (f + 1) n =
          natDigitsAux f (n / 10) ++ [Nat.digitChar (n % 10)] := by
        simp [natDigitsAux, h10]
      refine ⟨?_, ?_, ?_⟩
      · rw [hunf, digitsToNat_concat, ihd.1, charDigit_digitChar _ hmod]
        omega
      · rw [hunf]
        simp
      · intro c hc
        rw [hunf] at hc
        rcases List.mem_append.mp hc with hc | hc
        · exact ihd.2.2 c hc
        · rw [List.mem_singleton.mp hc]
          exact digitChar_isDigit _ hmod

theorem natDigits_spec (n : Nat) :
    digitsToNat (natDigits n) = n ∧ natDigits n ≠ [] ∧
    ∀ c ∈ natDigits n, c.isDigit = true :=
  natDigitsAux_spec (n + 1) n (Nat.lt_succ_self n)

theorem takeWhile_block {α : Type} (p : α → Bool) (xs : List α) (y : α) (ys : List α)
    (hx : ∀ x ∈ xs, p x = true) (hy : p y = false) :
    (xs ++ y :: ys).takeWhile p = xs ∧ (xs ++ y :: ys).dropWhile p = y :: ys := by
  induction xs with
  | nil =>
    have hy' : ¬p y = true := by simp [hy]
    constructor
    · simp only [List.nil_append]
      rw [List.takeWhile_cons_of_neg hy']
    · simp only [List.nil_append]
      rw [List.dropWhile_cons_of_neg hy']
  | cons x xt ih =>
    have hpx : p x = true := hx x (List.mem_cons_self _ _)
    have iht := ih (fun a ha => hx a (List.mem_cons_of_mem _ ha))
    constructor
    · simpa [List.takeWhile_cons_of_pos hpx] using iht.1
    · simpa [List.dropWhile_cons_of_pos hpx] using iht.2

/-! ## The whole-hours duration literal re-parsed by the day branch -/

theorem parseGoDuration_wholeHours (n : Int)
    (hbound : n.natAbs * 3600000000000 ≤ 9223372036854775807) :
    parseGoDuration (intToDecimal n ++ "h") = some (n * 3600000000000) := by
  have hds := natDigits_spec n.natAbs
  obtain ⟨d0, dt, hdcons⟩ : ∃ a l, natDigits n.natAbs = a :: l := by
    cases hd : natDigits n.natAbs with
    | nil => exact absurd hd hds.2.1
    | cons a l => exact ⟨a, l, rfl⟩
  have hall : ∀ x ∈ d0 :: dt, Char.isDigit x = true := by
    rw [← hdcons]; exact hds.2.2
  have hTW := takeWhile_block Char.isDigit (d0 :: dt) 'h' [] hall (by rfl)
  have hsum : digitsToNat (d0 :: dt) = n.natAbs := by rw [← hdcons]; exact hds.1
  have hlist : (intToDecimal n ++ "h").toList =
      (if n < 0 then ['-'] else []) ++ ((d0 :: dt) ++ ['h']) := by
    by_cases hn : n < 0 <;>
      simp [intToDecimal, hn, String.toList, String.data_append, ← hdcons]
  have hu : unitNs "h" = some 3600000000000 := rfl
  have hcomp : durComponents ((d0 :: (dt ++ ['h'])).length + 1) (d0 :: (dt ++ ['h'])) =
      some (n.natAbs * 3600000000000) := by
    have hcons : (d0 :: dt) ++ ['h'] = d0 :: (dt ++ ['h']) := by simp
    have hTW1 : (d0 :: (dt ++ ['h'])).takeWhile Char.isDigit = d0 :: dt := by
      rw [← hcons]; exact hTW.1
    have hDW1 : (d0 :: (dt ++ ['h'])).dropWhile Char.isDigit = ['h'] := by
      rw [← hcons]; exact hTW.2
    have hz : digitsToNat ([] : List Char) = 0 := rfl
    simp only [durComponents, hTW1, hDW1]
    simp [hu, hz, hsum]
  have hb2 : ¬((n.natAbs * 3600000000000 : Nat) : Int) > int64Max := by
    simp only [int64Max, gt_iff_lt, not_lt]
    exact_mod_cast hbound
  have hclean : ((n.natAbs * 3600000000000 : Nat) : Int) = (n.natAbs : Int) * 3600000000000 := by
    push_cast
    ring
  have hne0 : d0 :: (dt ++ ['h']) ≠ ['0'] := by
    intro hcon
    have := congrArg List.length hcon
    simp at this
  have hnemp : (d0 :: (dt ++ ['h'])).isEmpty = false := rfl
  unfold parseGoDuration
  rw [hlist]
  by_cases hn : n < 0
  · rw [if_pos hn]
    have hshape : (['-'] : List Char) ++ (d0 :: dt ++ ['h']) = '-' :: (d0 :: (dt ++ ['h'])) := by
      simp
    rw [hshape]
    have hsplit : splitSign ('-' :: (d0 :: (dt ++ ['h']))) = (true, d0 :: (dt ++ ['h'])) := by
      simp [splitSign]
    simp only [parseGoDurationL, hsplit]
    rw [if_neg hne0]
    simp only [hnemp, Bool.false_eq_true, if_false, hcomp]
    rw [if_neg hb2]
    all_goals simp only [Option.some.injEq, if_true]
    all_goals simp [abs_of_neg hn]
  · rw [if_neg hn]
    have hshape : ([] : List Char) ++ (d0 :: dt ++ ['h']) = d0 :: (dt ++ ['h']) := by simp
    rw [hshape]
    have hd0 : d0.isDigit = true := hall d0 (List.mem_cons_self _ _)
    have hd0m : ¬(d0 = '-') := by
      intro hcon; rw [hcon] at hd0; exact absurd hd0 (by decide)
    have hd0p : ¬(d0 = '+') := by
      intro hcon; rw [hcon] at hd0; exact absurd hd0 (by decide)
    have hsplit : splitSign (d0 :: (dt ++ ['h'])) = (false, d0 :: (dt ++ ['h'])) := by
      simp [splitSign, hd0m, hd0p]
    simp only [parseGoDurationL, hsplit]
    rw [if_neg hne0]
    simp only [hnemp, Bool.false_eq_true, if_false, hcomp]
    rw [if_neg hb2]
    all_goals simp only [Option.some.injEq, if_true]
    all_goals simp [abs_of_nonneg (le_of_not_lt hn)]

theorem parseValue_daySuffix (s : String) (q : ℚ) (dl : String)
    (hq : parseGoFloat s = some q)
    (hbound : (roundHalfEven (ratMul q (mkRat 24 1))).natAbs * 3600000000000 ≤
      9223372036854775807) :
    parseValue (s ++ "d") TypeDuration dl =
      .ok (some (.vDuration (roundHalfEven (ratMul q (mkRat 24 1)) * 3600000000000))) := by
  have hdata : (s ++ "d").toList = s.toList ++ ['d'] := by
    simp [String.toList, String.data_append]
  have hne : ¬(s ++ "d" = "") := by
    intro hcon
    have h2 := congrArg String.toList hcon
    rw [hdata] at h2
    simp at h2
  have hlast : (s ++ "d").toList.getLast? = some 'd' := by
    rw [hdata]; exact List.getLast?_concat _
  have hfloat : parseGoFloatL (s ++ "d").toList.dropLast = some q := by
    rw [hdata, List.dropLast_concat]; exact hq
  have hdur : parseGoDuration
      (fmtF0 (ratMul q (mkRat 24 1)) ++ "h") =
      some (roundHalfEven (ratMul q (mkRat 24 1)) * 3600000000000) := by
    rw [show fmtF0 (ratMul q (mkRat 24 1)) =
      intToDecimal (roundHalfEven (ratMul q (mkRat 24 1))) from rfl]
    exact parseGoDuration_wholeHours _ hbound
  simp only [parseValue, hne, TypeString, TypeInt64, TypeFloat64, TypeBool, TypeDuration,
    hlast, hfloat, hdur]
  norm_num

/-! ## Claim theorems -/

/-- C1: the claim states that when a key has both a registered flag and an
environment variable and both supply non-empty values (no file value
present), Process resolves the flag's value.  The resolver Process
actually uses (resolveValueWithFiles) consults the environment variable
at priority 2 and the flag only at priority 3, so the environment wins:
with flag --port=9090 parsed and PORT=7070 in the environment, the key
resolves to "7070" with source tag "env", not to the flag's "9090".
This contradicts the repository's own README ("Config Files → Flags →
Environment Variables → Defaults"), its project plan ("Command-line
flags override environment variables"), its override-warning messages,
and the legacy resolveValue, which all put the flag first — the claim
matches the documented intent and the code is the slip. -/
theorem c1_env_beats_flag :
    bothFlagAndEnv.flags "PORT" = "9090" ∧
    bothFlagAndEnv.env "PORT" = "7070" ∧
    bothFlagAndEnv.fileConfig = none ∧
    portDef.flag = "port" ∧ portDef.envVar = "PORT" ∧
    resolveValueWithFiles bothFlagAndEnv "PORT" portDef =
      ⟨some (.vString "7070"), "env", none⟩ :=
  ⟨rfl, rfl, rfl, rfl, rfl, rfl⟩

/-- C2 (counterexample): the claimed invariant — after a successful
Process every defined key has an entry in exactly one of the value map
and the secret vault, valueless non-required keys absent from both — is
false on the code: Process writes a "[SECRET]" placeholder entry into
the value map for every stored secret (so a secret key has an entry in
both stores), and it writes a nil-valued entry into the value map for a
valueless non-required key (so that key is not absent from the value
map).  The two-key scenario c2Run (a secret key resolved from the
environment plus a valueless optional key) processes without errors yet
violates the invariant as stated. -/
theorem c2_exactly_one_counterexample :
    c2Run.2.1 = [] ∧
    specExactlyOneInvariant c2Run.1 (envOnly "API_KEY" "s3cr3t") = false :=
  ⟨rfl, rfl⟩

/-- C3: for a String secret required definition whose only source is the
environment variable API_KEY="s3cr3t-val", Process succeeds, the general
value map holds only the "[SECRET]" placeholder for the key, the vault
handle reports isSet, size = len("s3cr3t-val") and the original string,
and the generic type-checked getter panics (secret guard) for every type
argument. -/
theorem c3_secret_isolation :
    c3Run.2.1 = [] ∧
    alookup c3Run.1.values "API_KEY" = some (some (.vString "[SECRET]")) ∧
    (GetSecret c3Run.1 "API_KEY").isSet = true ∧
    (GetSecret c3Run.1 "API_KEY").size = "s3cr3t-val".utf8ByteSize ∧
    (GetSecret c3Run.1 "API_KEY").size = 10 ∧
    (GetSecret c3Run.1 "API_KEY").asString = "s3cr3t-val" ∧
    ∀ T : GoType, GetTyped c3Run.1 T "API_KEY" = .panicSecret :=
  ⟨rfl, rfl, rfl, rfl, rfl, rfl, fun T => by cases T <;> rfl⟩

/-- C5 (counterexample): the claim says that whenever a key has a value in
the loaded file configuration and a non-empty environment variable, the
file's value wins and the environment is not consulted.  A file value
that stringifies to the empty string is a counterexample: the file stores
"" for HOST, the environment has HOST=envhost, and resolution returns
the environment's value with source "env". -/
theorem c5_counterexample :
    getFileValue fileEmptyWithEnv.fileConfig "HOST" = some (.fString "") ∧
    fileEmptyWithEnv.env "HOST" = "envhost" ∧
    resolveValueWithFiles fileEmptyWithEnv "HOST" hostDef =
      ⟨some (.vString "envhost"), "env", none⟩ ∧
    (resolveValueWithFiles fileEmptyWithEnv "HOST" hostDef).source ≠ "file" :=
  ⟨rfl, rfl, rfl, by decide⟩

/-- C5 (amended): for every key whose file value stringifies to a
non-empty raw string, resolution is exactly the parse/validate outcome of
that string with source tag "file"; the result does not mention the
environment or flag inputs, so they are not consulted. -/
theorem c5_file_wins (c : Sources) (key : String) (d : Definition) (fv : FileValue) (s : String)
    (hf : getFileValue c.fileConfig key = some fv)
    (hr : fileValueToRaw fv d.delimiter = .ok s)
    (hs : s ≠ "") :
    resolveValueWithFiles c key d =
      (match parseValue s d.valueType d.delimiter with
       | .error e => ⟨some (.vString s), "file", some e⟩
       | .ok pv =>
         match firstFail d.validations pv with
         | some e => ⟨pv, "file", some e⟩
         | none => ⟨pv, "file", none⟩) ∧
    (resolveValueWithFiles c key d).source = "file" := by
  have h1 : resolveValueWithFiles c key d = resolveFromRaw c key d s "file" := by
    simp [resolveValueWithFiles, hf, hr]
  rw [h1, resolveFromRaw_raw c key d s "file" hs]
  refine ⟨rfl, ?_⟩
  cases hp : parseValue s d.valueType d.delimiter with
  | error e => simp [hp]
  | ok pv => cases hfk : firstFail d.validations pv <;> simp [hp, hfk]

/-- C5 witness: the PORT key stored as 8080 in a file while the
environment says 9999 resolves from the file. -/
theorem c5_file_wins_witness :
    getFileValue filePortWithEnv.fileConfig "PORT" = some (.fInt 8080) ∧
    fileValueToRaw (.fInt 8080) portIntDef.delimiter = .ok "8080" ∧
    ("8080" : String) ≠ "" ∧
    ((resolveValueWithFiles filePortWithEnv "PORT" portIntDef =
      (match parseValue "8080" portIntDef.valueType portIntDef.delimiter with
       | .error e => ⟨some (.vString "8080"), "file", some e⟩
       | .ok pv =>
         match firstFail portIntDef.validations pv with
         | some e => ⟨pv, "file", some e⟩
         | none => ⟨pv, "file", none⟩)) ∧
     (resolveValueWithFiles filePortWithEnv "PORT" portIntDef).source = "file") ∧
    resolveValueWithFiles filePortWithEnv "PORT" portIntDef =
      ⟨some (.vInt64 8080), "file", none⟩ :=
  ⟨rfl, rfl, by decide,
    c5_file_wins filePortWithEnv "PORT" portIntDef (.fInt 8080) "8080" rfl rfl (by decide),
    rfl⟩

/-- C7 (counterexample): the claim says every fractional day count X
parses as exactly X*24 hours.  For X = 0.03125 (exactly representable in
binary64, so the rational model and Go's float64 agree step for step),
X*24 = 0.75 hours = 2700000000000ns, but the code formats days*24 with
"%.0f" — rounding to a whole number of hours — and yields 1 hour
= 3600000000000ns. -/
theorem c7_day_rounding_counterexample :
    parseGoFloat "0.03125" = some (mkRat 1 32) ∧
    ratMul (mkRat 1 32) (mkRat 24 1) = mkRat 3 4 ∧
    parseValue "0.03125d" TypeDuration "," = .ok (some (.vDuration 3600000000000)) ∧
    (3600000000000 : Int) ≠ 2700000000000 :=
  ⟨rfl, rfl, rfl, by decide⟩

/-- C7 (amended): "1h30m" parses to exactly 90 minutes and "7d" to
exactly 168 hours; in general a day-suffixed value "Xd" whose prefix
parses as the number X yields X*24 hours rounded to the nearest whole
hour (ties to even) — exactly X*24 hours only when X*24 is a whole
number of hours. -/
theorem c7_duration_parsing (s : String) (q : ℚ) (dl : String)
    (hq : parseGoFloat s = some q)
    (hbound : (roundHalfEven (ratMul q (mkRat 24 1))).natAbs * 3600000000000 ≤
      9223372036854775807) :
    parseValue "1h30m" TypeDuration dl = .ok (some (.vDuration (90 * 60000000000))) ∧
    parseValue "7d" TypeDuration dl = .ok (some (.vDuration (168 * 3600000000000))) ∧
    parseValue (s ++ "d") TypeDuration dl =
      .ok (some (.vDuration (roundHalfEven (ratMul q (mkRat 24 1)) * 3600000000000))) :=
  ⟨rfl, rfl, parseValue_daySuffix s q dl hq hbound⟩

/-- C7 witness: "1.5d" yields 36 hours, an instance of the amended rule
with X = 1.5 and roundHalfEven(36) = 36. -/
theorem c7_duration_parsing_witness :
    parseGoFloat "1.5" = some (mkRat 3 2) ∧
    (roundHalfEven (ratMul (mkRat 3 2) (mkRat 24 1))).natAbs * 3600000000000 ≤
      9223372036854775807 ∧
    (parseValue "1h30m" TypeDuration "," = .ok (some (.vDuration (90 * 60000000000))) ∧
     parseValue "7d" TypeDuration "," = .ok (some (.vDuration (168 * 3600000000000))) ∧
     parseValue ("1.5" ++ "d") TypeDuration "," =
       .ok (some (.vDuration (roundHalfEven (ratMul (mkRat 3 2) (mkRat 24 1)) *
         3600000000000)))) ∧
    parseValue "1.5d" TypeDuration "," = .ok (some (.vDuration 129600000000000)) :=
  ⟨rfl, by decide,
    c7_duration_parsing "1.5" (mkRat 3 2) "," rfl (by decide),
    rfl⟩

/-- C9: list parsing of "a,,b" with delimiter "," trims each element and
drops empty ones, yielding exactly ["a", "b"]; and the empty raw string
parses to nil (absence, no error) for every value type — including
unknown type tags — and every delimiter, not to an empty list. -/
theorem c9_list_and_empty_parsing :
    parseValue "a,,b" TypeStringSlice "," = .ok (some (.vStringSlice ["a", "b"])) ∧
    ∀ (t : ValueType) (d : String), parseValue "" t d = .ok none :=
  ⟨rfl, fun _ _ => rfl⟩

/-- C10: after Process on a config whose only key is optional, non-secret
and sourceless, the value map holds an entry for the key whose payload is
nil, Has is false and GetOr falls back to the caller's default, yet the
generic getter does not take its key-not-found branch: the nil stored
value fails the type assertion for every type argument, so Get panics in
its type-assertion branch. -/
theorem c10_nil_entry_panics :
    alookup c10Run.1.values "OPT" = some none ∧
    c10Run.1.Has "OPT" = false ∧
    (∀ T : GoType, GetOr c10Run.1 T "OPT" = .defaulted) ∧
    (∀ T : GoType, GetTyped c10Run.1 T "OPT" = .panicTypeAssert) ∧
    (∀ T : GoType, GetTyped c10Run.1 T "OPT" ≠ .panicNotFound) :=
  ⟨rfl, rfl, fun T => by cases T <;> rfl, fun T => by cases T <;> rfl,
    fun T => by cases T <;> decide⟩

/-- C6: when the file, flag and environment sources yield no value and
the definition has a default, resolution returns exactly the default
with source "default"; the validation chain is run on the default in
declaration order with every rule named "required" skipped — running it
equals running the plain chain on the list with the required rules
filtered out, and a failing non-required rule surfaces that rule's
error. -/
theorem c6_default_resolution (c : Sources) (key : String) (d : Definition) (dv : Value)
    (hfile : getFileValue c.fileConfig key = none)
    (henv : d.envVar = "" ∨ c.env d.envVar = "")
    (hflag : d.flag = "" ∨ c.flags key = "")
    (hdef : d.defaultValue = some dv) :
    resolveValueWithFiles c key d =
      ⟨some dv, "default", firstFailNonRequired d.validations dv⟩ ∧
    firstFailNonRequired d.validations dv =
      firstFail (d.validations.filter (fun r => r.name ≠ "required")) (some dv) := by
  have h1 : resolveValueWithFiles c key d = resolveFromRaw c key d "" "" := by
    simp [resolveValueWithFiles, hfile]
  rw [h1, resolveFromRaw_noRaw c key d henv hflag, hdef]
  refine ⟨?_, firstFailNonRequired_eq _ _⟩
  cases hf : firstFailNonRequired d.validations dv <;> simp [hf]

/-- C6 witness: SIZE (Int64, required, Min(10000), default 8080) with no
sources resolves to the default 8080 with source "default", skips the
required rule, and fails the Min rule with that rule's error. -/
theorem c6_default_resolution_witness :
    getFileValue noSources.fileConfig "SIZE" = none ∧
    (sizeDef.envVar = "" ∨ noSources.env sizeDef.envVar = "") ∧
    (sizeDef.flag = "" ∨ noSources.flags "SIZE" = "") ∧
    sizeDef.defaultValue = some (.vInt64 8080) ∧
    (resolveValueWithFiles noSources "SIZE" sizeDef =
      ⟨some (.vInt64 8080), "default",
        firstFailNonRequired sizeDef.validations (.vInt64 8080)⟩ ∧
     firstFailNonRequired sizeDef.validations (.vInt64 8080) =
      firstFail (sizeDef.validations.filter (fun r => r.name ≠ "required"))
        (some (.vInt64 8080))) ∧
    firstFailNonRequired sizeDef.validations (.vInt64 8080) =
      some "value 8080 is less than minimum 10000" :=
  ⟨rfl, Or.inl rfl, Or.inl rfl, rfl,
    c6_default_resolution noSources "SIZE" sizeDef (.vInt64 8080) rfl
      (Or.inl rfl) (Or.inl rfl) rfl,
    rfl⟩

/-- C2 (amended): after a successful Process (empty error list), every
defined key has an entry in the general value map; the secret vault holds
the key exactly when the definition is secret and resolution produced a
value — and then the value-map entry is only the "[SECRET]" placeholder
while the vault holds the stringified value; a non-secret key has its
resolved value (nil included) in the value map and nothing in the vault;
a key whose resolution yielded no value has a nil entry (so Has is
false) and nothing in the vault. -/
theorem c2_storage_invariant (defs : List (String × Definition)) (src : Sources)
    (hnd : (defs.map Prod.fst).Nodup)
    (herr : (Process (newConfig defs) src).2.1 = [])
    (k : String) (d : Definition) (hmem : (k, d) ∈ defs) :
    (alookup (Process (newConfig defs) src).1.values k).isSome = true ∧
    (alookup (Process (newConfig defs) src).1.secrets k).isSome =
      (d.secret && (resolveValueWithFiles src k d).value.isSome) ∧
    (∀ v, (resolveValueWithFiles src k d).value = some v → d.secret = true →
      alookup (Process (newConfig defs) src).1.values k =
        some (some (.vString "[SECRET]")) ∧
      alookup (Process (newConfig defs) src).1.secrets k =
        some (newSecret (goSprintValue v))) ∧
    (d.secret = false →
      alookup (Process (newConfig defs) src).1.values k =
        some ((resolveValueWithFiles src k d).value) ∧
      alookup (Process (newConfig defs) src).1.secrets k = none) ∧
    ((resolveValueWithFiles src k d).value = none →
      (Process (newConfig defs) src).1.Has k = false ∧
      alookup (Process (newConfig defs) src).1.secrets k = none) := by
  have hfold : Process (newConfig defs) src =
      ((defs.foldl (processStep src) (⟨defs, [], [], true⟩, [])).1,
       (defs.foldl (processStep src) (⟨defs, [], [], true⟩, [])).2, []) := rfl
  rw [hfold] at herr ⊢
  have herr2 : defs.filterMap (stepErr src) = [] := by
    have he := foldl_errs src defs ⟨defs, [], [], true⟩ []
    rw [he] at herr
    simpa using herr
  have hse : stepErr src (k, d) = none := (List.filterMap_eq_nil_iff.mp herr2) (k, d) hmem
  have hok : (resolveValueWithFiles src k d).err = none := by
    unfold stepErr at hse
    rcases h : (resolveValueWithFiles src k d).err with _ | m
    · rfl
    · simp [h] at hse
  have hl := foldl_lookup_mem src defs k d ⟨defs, [], [], true⟩ [] hmem hnd hok
  have hsec : alookup ((defs.foldl (processStep src) (⟨defs, [], [], true⟩, [])).1).secrets k =
      storedSecret src (k, d) := by
    rw [hl.2]
    cases storedSecret src (k, d) <;> rfl
  refine ⟨?_, ?_, ?_, ?_, ?_⟩
  · simp [hl.1]
  · rw [hsec]
    unfold storedSecret
    rcases hv : (resolveValueWithFiles src k d).value with _ | v
    · simp [hv]
    · by_cases hsd : d.secret <;> simp [hv, hsd]
  · intro v hv hsd
    have hval := hl.1
    unfold storedValue at hval
    rw [hv] at hval
    rw [hsd] at hval
    refine ⟨by simpa using hval, ?_⟩
    rw [hsec]
    unfold storedSecret
    simp [hv, hsd]
  · intro hsd
    have hval := hl.1
    unfold storedValue at hval
    constructor
    · rcases hv : (resolveValueWithFiles src k d).value with _ | v
      · rw [hv] at hval
        simpa [hv] using hval
      · rw [hv] at hval
        rw [hsd] at hval
        simpa [hv] using hval
    · rw [hsec]
      unfold storedSecret
      rcases hv : (resolveValueWithFiles src k d).value with _ | v
      · simp [hv]
      · simp [hv, hsd]
  · intro hv
    have hval := hl.1
    unfold storedValue at hval
    rw [hv] at hval
    constructor
    · unfold ConfigState.Has
      rw [hval]
    · rw [hsec]
      unfold storedSecret
      simp [hv]

/-- C2 witness: the two-key scenario of the counterexample satisfies the
amended invariant: the secret key has the placeholder entry and the
vault value. -/
theorem c2_storage_invariant_witness :
    (c2Defs.map Prod.fst).Nodup ∧
    (Process (newConfig c2Defs) (envOnly "API_KEY" "s3cr3t")).2.1 = [] ∧
    ("API_KEY", apiKeyDef) ∈ c2Defs ∧
    ((alookup (Process (newConfig c2Defs) (envOnly "API_KEY" "s3cr3t")).1.values
        "API_KEY").isSome = true ∧
     (alookup (Process (newConfig c2Defs) (envOnly "API_KEY" "s3cr3t")).1.secrets
        "API_KEY").isSome =
       (apiKeyDef.secret &&
         (resolveValueWithFiles (envOnly "API_KEY" "s3cr3t") "API_KEY" apiKeyDef).value.isSome) ∧
     (∀ v, (resolveValueWithFiles (envOnly "API_KEY" "s3cr3t") "API_KEY" apiKeyDef).value =
          some v →
        apiKeyDef.secret = true →
        alookup (Process (newConfig c2Defs) (envOnly "API_KEY" "s3cr3t")).1.values "API_KEY" =
          some (some (.vString "[SECRET]")) ∧
        alookup (Process (newConfig c2Defs) (envOnly "API_KEY" "s3cr3t")).1.secrets "API_KEY" =
          some (newSecret (goSprintValue v))) ∧
     (apiKeyDef.secret = false →
        alookup (Process (newConfig c2Defs) (envOnly "API_KEY" "s3cr3t")).1.values "API_KEY" =
          some ((resolveValueWithFiles (envOnly "API_KEY" "s3cr3t") "API_KEY" apiKeyDef).value) ∧
        alookup (Process (newConfig c2Defs) (envOnly "API_KEY" "s3cr3t")).1.secrets "API_KEY" =
          none) ∧
     ((resolveValueWithFiles (envOnly "API_KEY" "s3cr3t") "API_KEY" apiKeyDef).value = none →
        (Process (newConfig c2Defs) (envOnly "API_KEY" "s3cr3t")).1.Has "API_KEY" = false ∧
        alookup (Process (newConfig c2Defs) (envOnly "API_KEY" "s3cr3t")).1.secrets "API_KEY" =
          none)) :=
  ⟨by decide, rfl, List.mem_cons_self _ _,
    c2_storage_invariant c2Defs (envOnly "API_KEY" "s3cr3t") (by decide) rfl
      "API_KEY" apiKeyDef (List.mem_cons_self _ _)⟩

/-- C4: Process resolves every definition even when others fail — its
error list is exactly one record per failing key (the filterMap of the
per-key error), every non-failing key is stored in the value map, a
failing key contributes exactly one record to the list, and a required
key with no file, flag, environment or default value fails with
precisely the required-missing record while the other keys are still
resolved.  The model's Process is a total function, matching the
contract that ordinary bad input never panics. -/
theorem c4_error_aggregation (defs : List (String × Definition)) (src : Sources)
    (hnd : (defs.map Prod.fst).Nodup) :
    (Process (newConfig defs) src).2.1 = defs.filterMap (stepErr src) ∧
    (∀ kd ∈ defs, (resolveValueWithFiles src kd.1 kd.2).err = none →
      (alookup (Process (newConfig defs) src).1.values kd.1).isSome = true) ∧
    (∀ kd ∈ defs, ∀ e, stepErr src kd = some e →
      (((Process (newConfig defs) src).2.1).filter (fun er => er.key = kd.1)).length = 1) ∧
    (∀ kd ∈ defs,
      getFileValue src.fileConfig kd.1 = none →
      (kd.2.envVar = "" ∨ src.env kd.2.envVar = "") →
      (kd.2.flag = "" ∨ src.flags kd.1 = "") →
      kd.2.defaultValue = none →
      kd.2.required = true →
      stepErr src kd = some ⟨kd.1, "none", "",
        "required value not provided (set in file, " ++ kd.2.envVar ++
          " or --" ++ kd.2.flag ++ ")"⟩) := by
  have hfold : Process (newConfig defs) src =
      ((defs.foldl (processStep src) (⟨defs, [], [], true⟩, [])).1,
       (defs.foldl (processStep src) (⟨defs, [], [], true⟩, [])).2, []) := rfl
  have herrs : (defs.foldl (processStep src) (⟨defs, [], [], true⟩, [])).2 =
      defs.filterMap (stepErr src) := by
    have he := foldl_errs src defs ⟨defs, [], [], true⟩ []
    simpa using he
  refine ⟨?_, ?_, ?_, ?_⟩
  · rw [hfold]
    exact herrs
  · intro kd hkd hok
    have hl := foldl_lookup_mem src defs kd.1 kd.2 ⟨defs, [], [], true⟩ [] hkd hnd hok
    rw [hfold]
    simp [hl.1]
  · intro kd hkd e he
    rw [hfold]
    show (((defs.foldl (processStep src) (⟨defs, [], [], true⟩, [])).2).filter
      (fun er => er.key = kd.1)).length = 1
    rw [herrs]
    exact filter_errs_one src defs kd.1 kd.2 hkd hnd e he
  · intro kd hkd hfile henv hflag hdef hreq
    have h1 : resolveValueWithFiles src kd.1 kd.2 = resolveFromRaw src kd.1 kd.2 "" "" := by
      simp [resolveValueWithFiles, hfile]
    have hres : resolveValueWithFiles src kd.1 kd.2 =
        ⟨none, "none", some ("required value not provided (set in file, " ++ kd.2.envVar ++
          " or --" ++ kd.2.flag ++ ")")⟩ := by
      rw [h1, resolveFromRaw_noRaw src kd.1 kd.2 henv hflag, hdef]
      simp [hreq]
    unfold stepErr
    rw [hres]
    simp [displayValue, hres]

/-- C4 witness: a required sourceless key REQ next to a defaulted key OK:
Process returns exactly the one required-missing record for REQ and
still resolves OK to its default. -/
theorem c4_error_aggregation_witness :
    (c4Defs.map Prod.fst).Nodup ∧
    ((Process (newConfig c4Defs) noSources).2.1 = c4Defs.filterMap (stepErr noSources) ∧
     (∀ kd ∈ c4Defs, (resolveValueWithFiles noSources kd.1 kd.2).err = none →
       (alookup (Process (newConfig c4Defs) noSources).1.values kd.1).isSome = true) ∧
     (∀ kd ∈ c4Defs, ∀ e, stepErr noSources kd = some e →
       (((Process (newConfig c4Defs) noSources).2.1).filter
         (fun er => er.key = kd.1)).length = 1) ∧
     (∀ kd ∈ c4Defs,
       getFileValue noSources.fileConfig kd.1 = none →
       (kd.2.envVar = "" ∨ noSources.env kd.2.envVar = "") →
       (kd.2.flag = "" ∨ noSources.flags kd.1 = "") →
       kd.2.defaultValue = none →
       kd.2.required = true →
       stepErr noSources kd = some ⟨kd.1, "none", "",
         "required value not provided (set in file, " ++ kd.2.envVar ++
           " or --" ++ kd.2.flag ++ ")"⟩)) ∧
    c4Run.2.1 =
      [⟨"REQ", "none", "", "required value not provided (set in file, REQ_ENV or --req)"⟩] ∧
    alookup c4Run.1.values "OK" = some (some (.vInt64 7)) :=
  ⟨by decide, c4_error_aggregation c4Defs noSources (by decide), rfl, rfl⟩

/-- C8: re-calling Process on an already-processed Config first destroys
every existing secret handle and clears the general value map, then runs
a full fresh resolution: with identical inputs the second call returns
the same values, the same errors and an identical-shape freshly built
vault, and the handles it destroyed are exactly the first run's handles,
every one of them wiped.  The first call destroys nothing. -/
theorem c8_reprocess_idempotent (defs : List (String × Definition)) (src : Sources) :
    (Process (Process (newConfig defs) src).1 src).1.values =
      (Process (newConfig defs) src).1.values ∧
    (Process (Process (newConfig defs) src).1 src).1.secrets =
      (Process (newConfig defs) src).1.secrets ∧
    (Process (Process (newConfig defs) src).1 src).2.1 =
      (Process (newConfig defs) src).2.1 ∧
    (Process (Process (newConfig defs) src).1 src).2.2 =
      (Process (newConfig defs) src).1.secrets.map (fun p => (p.1, p.2.destroy)) ∧
    (∀ p ∈ (Process (Process (newConfig defs) src).1 src).2.2, p.2.buffer = none) ∧
    (Process (newConfig defs) src).2.2 = [] := by
  have hfold : Process (newConfig defs) src =
      ((defs.foldl (processStep src) (⟨defs, [], [], true⟩, [])).1,
       (defs.foldl (processStep src) (⟨defs, [], [], true⟩, [])).2, []) := rfl
  have hmeta := foldl_meta src defs ⟨defs, [], [], true⟩ []
  have hproc : (Process (newConfig defs) src).1.processed = true := by
    rw [hfold]
    exact hmeta.2
  have hdefs : (Process (newConfig defs) src).1.definitions = defs := by
    rw [hfold]
    exact hmeta.1
  have hc2 : ({ { (Process (newConfig defs) src).1 with values := [], secrets := [] } with
      processed := true } : ConfigState) = (⟨defs, [], [], true⟩ : ConfigState) := by
    show (⟨(Process (newConfig defs) src).1.definitions, [], [], true⟩ : ConfigState) = _
    rw [hdefs]
  have h2 : Process (Process (newConfig defs) src).1 src =
      ((defs.foldl (processStep src) (⟨defs, [], [], true⟩, [])).1,
       (defs.foldl (processStep src) (⟨defs, [], [], true⟩, [])).2,
       (Process (newConfig defs) src).1.secrets.map (fun p => (p.1, p.2.destroy))) := by
    show (let cleared :=
        if (Process (newConfig defs) src).1.processed then
          ({ (Process (newConfig defs) src).1 with values := [], secrets := [] },
           (Process (newConfig defs) src).1.secrets.map (fun p => (p.1, p.2.destroy)))
        else ((Process (newConfig defs) src).1, []);
      let c2 := { cleared.1 with processed := true };
      let folded := c2.definitions.foldl (processStep src) (c2, []);
      (folded.1, folded.2, cleared.2)) = _
    rw [if_pos hproc]
    simp only [hc2]
    rw [hdefs]
  refine ⟨?_, ?_, ?_, ?_, ?_, ?_⟩
  · rw [h2, hfold]
  · rw [h2, hfold]
  · rw [h2, hfold]
  · rw [h2]
  · intro p hp
    rw [h2] at hp
    rcases List.mem_map.mp hp with ⟨q, _, hq⟩
    rw [← hq]
    rfl
  · rw [hfold]

end Commandkit
